import Mathlib

/-!
Verification of the Iron & Copper core mechanics (`ironcopper/core.py` and
`ironcopper/core/attributes.py`).

The Python `random` module is modelled as a pure state: an infinite stream of
raw natural numbers together with a cursor.  `randint lo hi` consumes one raw
value and reduces it into the inclusive range `[lo, hi]`, so every draw lies in
range by construction and a fixed stream makes every roll reproducible.  All
game functions are embedded as state-passing functions over this `RState`.
-/

namespace IronCopper

/-- State of the random source: an infinite stream of raw draws and a cursor. -/
structure RState where
  stream : Nat → Nat
  idx : Nat

/-- The state after consuming `k` draws. -/
def advance (s : RState) (k : Nat) : RState :=
  ⟨s.stream, s.idx + k⟩

/-- Model of `random.randint(lo, hi)`: an inclusive uniform integer draw,
consuming one raw stream value. -/
def randint (lo hi : Int) (s : RState) : Int × RState :=
  (lo + ((s.stream s.idx) % (hi + 1 - lo).toNat : Nat), ⟨s.stream, s.idx + 1⟩)

/-- Draw `n` values with `randint lo hi`, first draw at the head
(embedding of the Python list comprehension over `range(n)`). -/
def drawN (lo hi : Int) : Nat → RState → List Int × RState
  | 0, s => ([], s)
  | n + 1, s =>
    let p := randint lo hi s
    let q := drawN lo hi n p.2
    (p.1 :: q.1, q.2)

/-- Python's `max` over a (nonempty) list; `0` is a dummy for `[]`,
which the code never produces here. -/
def listMax : List Int → Int
  | [] => 0
  | x :: xs => xs.foldl max x

/-- Python's `min` over a (nonempty) list; `0` is a dummy for `[]`. -/
def listMin : List Int → Int
  | [] => 0
  | x :: xs => xs.foldl min x

/-- The list of individual D20 faces drawn by `d20 adv` from state `s`. -/
def d20rolls (adv : Int) (s : RState) : List Int :=
  (drawN 1 20 (adv.natAbs + 1) s).1

/-- Embedding of `d20(adv)`: draw `abs(adv) + 1` dice in `[1, 20]`; the result
is the maximum when `adv > 0`, otherwise the minimum (trace output omitted:
it never affects the returned value). -/
def d20 (adv : Int) (s : RState) : Int × RState :=
  let r := drawN 1 20 (adv.natAbs + 1) s
  (if 0 < adv then listMax r.1 else listMin r.1, r.2)

/-- Embedding of `d6(count, critical)`: draw `count` dice in `[1, 6]`
(`range(count)` is empty for `count <= 0`), sum them, and add `count * 6`
when critical. -/
def d6 (count : Int) (critical : Bool) (s : RState) : Int × RState :=
  let r := drawN 1 6 count.toNat s
  (r.1.sum + (if critical then count * 6 else 0), r.2)

/-- The five skill-check outcomes of `Outcome` in `core.py`. -/
inductive Outcome where
  | CriticalFail
  | Fail
  | NearFail
  | Success
  | CriticalSuccess
deriving DecidableEq, Repr

/-- The integer rank each `Outcome` variant carries in the source enum. -/
def Outcome.value : Outcome → Int
  | .CriticalFail => -2
  | .Fail => -1
  | .NearFail => 0
  | .Success => 1
  | .CriticalSuccess => 2

/-- Embedding of `check(threshold, adv)`: roll a D20 and classify it. -/
def check (threshold : Int) (adv : Int) (s : RState) : Outcome × RState :=
  let r := d20 adv s
  (if r.1 = 1 then Outcome.CriticalFail
   else if r.1 = 20 then Outcome.CriticalSuccess
   else if r.1 < threshold then Outcome.Fail
   else if r.1 > threshold then Outcome.Success
   else Outcome.NearFail, r.2)

/-- Truthiness of the Python condition `maxRolls and rollCount >= maxRolls`:
`None` and `0` are falsy, any other integer is truthy. -/
def budgetExhausted (maxRolls : Option Int) (rollCount : Int) : Bool :=
  match maxRolls with
  | none => false
  | some m => decide (m ≠ 0) && decide (m ≤ rollCount)

/-- Embedding of the `while accumulator < threshold` loop in
`extendedCheck`: the budget test precedes each draw, each iteration draws one
unmodified D20 (`d20()` with default advantage 0) and adds it to the
accumulator.  Termination: every draw is at least 1, so `threshold -
accumulator` strictly decreases while the loop runs. -/
def extendedCheckAux (threshold : Int) (maxRolls : Option Int)
    (accumulator rollCount : Int) (s : RState) : (Outcome × Int) × RState :=
  if h : accumulator < threshold then
    if budgetExhausted maxRolls rollCount then
      ((Outcome.Fail, maxRolls.getD 0), s)
    else
      extendedCheckAux threshold maxRolls (accumulator + (d20 0 s).1)
        (rollCount + 1) (d20 0 s).2
  else
    ((Outcome.Success, rollCount), s)
termination_by (threshold - accumulator).toNat
decreasing_by
  have h1 : 1 ≤ (d20 0 s).1 := by
    simp [d20, drawN, randint, listMin]
    omega
  omega

/-- Embedding of `extendedCheck(threshold, maxRolls)`. -/
def extendedCheck (threshold : Int) (maxRolls : Option Int) (s : RState) :
    (Outcome × Int) × RState :=
  extendedCheckAux threshold maxRolls 0 0 s

/-- Embedding of the `Attribute` class: a score and a display label. -/
structure Attribute where
  score : Int
  label : String

/-- `Attribute.modifier`: `score - 10`. -/
def Attribute.modifier (a : Attribute) : Int :=
  a.score - 10

/-- `Attribute.check`: delegate with the threshold lowered by the modifier. -/
def Attribute.check (a : Attribute) (threshold : Int) (adv : Int) (s : RState) :
    Outcome × RState :=
  IronCopper.check (threshold - a.modifier) adv s

/-- `Attribute.extendedCheck`: same threshold adjustment, extended variant. -/
def Attribute.extendedCheck (a : Attribute) (threshold : Int)
    (maxRolls : Option Int) (s : RState) : (Outcome × Int) × RState :=
  IronCopper.extendedCheck (threshold - a.modifier) maxRolls s

/-- Modelled from the spec: the stream the random source produces after
`reseed(seed)`.  The Python generator (`random.seed` / Mersenne Twister) is
outside this repository; the spec only requires deterministic
reinitialization, which any fixed function of the seed provides. -/
def seedStream (seed : Nat) : Nat → Nat :=
  fun i => (seed + i) * 2654435761 % 4294967296

/-- Embedding of `setSeed` (`random.seed`): deterministic reinitialization of
the random source. -/
def setSeed (seed : Nat) : RState :=
  ⟨seedStream seed, 0⟩

/-- One call of the public surface, for replaying call sequences. -/
inductive Op where
  | rollD20 (adv : Int)
  | rollD6 (count : Int) (critical : Bool)
  | classify (threshold adv : Int)
  | extendedClassify (threshold : Int) (maxRolls : Option Int)

/-- The observable result of one call: the returned value together with the
individual faces drawn during the call. -/
inductive CallResult where
  | num (value : Int) (rolls : List Int)
  | outcome (o : Outcome) (rolls : List Int)
  | outcomeCount (o : Outcome) (count : Int)
deriving DecidableEq

/-- Run one call against the random source, reporting result and draws. -/
def runOp : Op → RState → CallResult × RState
  | .rollD20 adv, s => ((.num (d20 adv s).1 (d20rolls adv s)), (d20 adv s).2)
  | .rollD6 count critical, s =>
    ((.num (d6 count critical s).1 (drawN 1 6 count.toNat s).1),
      (d6 count critical s).2)
  | .classify threshold adv, s =>
    ((.outcome (check threshold adv s).1 (d20rolls adv s)),
      (check threshold adv s).2)
  | .extendedClassify threshold maxRolls, s =>
    ((.outcomeCount (extendedCheck threshold maxRolls s).1.1
        (extendedCheck threshold maxRolls s).1.2),
      (extendedCheck threshold maxRolls s).2)

/-- Run a sequence of calls, threading the random source through. -/
def runOps : List Op → RState → List CallResult × RState
  | [], s => ([], s)
  | op :: ops, s =>
    let r := runOp op s
    let rest := runOps ops r.2
    (r.1 :: rest.1, rest.2)

/-- Error taxonomy of the spec (section 7). -/
inductive Err where
  | invalidArgument
deriving DecidableEq

/-- `d6` viewed through an error channel: the Python body contains no raise
statement, so every call returns normally. -/
def d6E (count : Int) (critical : Bool) (s : RState) :
    Except Err (Int × RState) :=
  Except.ok (d6 count critical s)

/-- `extendedCheck` viewed through an error channel: the Python body contains
no raise statement, so every call returns normally. -/
def extendedCheckE (threshold : Int) (maxRolls : Option Int) (s : RState) :
    Except Err ((Outcome × Int) × RState) :=
  Except.ok (extendedCheck threshold maxRolls s)

/-- The `i`-th D20 face (zero-based) that plain `d20()` calls produce from
state `s`. -/
def nthDraw (s : RState) (i : Nat) : Int :=
  1 + ((s.stream (s.idx + i)) % 20 : Nat)

/-- Sum of the first `k` plain D20 draws from state `s`. -/
def sumDraws (s : RState) : Nat → Int
  | 0 => 0
  | k + 1 => sumDraws s k + nthDraw s k

/-- A fixed test stream used for concrete witnesses. -/
def testStream : Nat → Nat :=
  fun i => 3 * i + 6

/-- A concrete random-source state for witnesses. -/
def st0 : RState :=
  ⟨testStream, 0⟩

/-- `drawN` produces exactly `n` faces. -/
theorem drawN_length (lo hi : Int) (n : Nat) (s : RState) :
    ((drawN lo hi n s).1).length = n := by
  induction n generalizing s with
  | zero => rfl
  | succ n ih => simp [drawN, ih]

/-- `drawN` consumes exactly `n` raw values from the stream. -/
theorem drawN_snd (lo hi : Int) (n : Nat) (s : RState) :
    (drawN lo hi n s).2 = advance s n := by
  induction n generalizing s with
  | zero => simp [drawN, advance]
  | succ n ih =>
    simp only [drawN, ih, randint, advance]
    congr 1
    omega

/-- Every face drawn by `drawN lo hi` lies in `[lo, hi]` when `lo ≤ hi`. -/
theorem drawN_mem_bounds (lo hi : Int) (hlh : lo ≤ hi) (n : Nat) (s : RState) :
    ∀ x ∈ (drawN lo hi n s).1, lo ≤ x ∧ x ≤ hi := by
  induction n generalizing s with
  | zero => simp [drawN]
  | succ n ih =>
    intro x hx
    simp only [drawN, List.mem_cons] at hx
    rcases hx with hx | hx
    · subst hx
      simp only [randint]
      have hd : s.stream s.idx % (hi + 1 - lo).toNat < (hi + 1 - lo).toNat :=
        Nat.mod_lt _ (by omega)
      omega
    · exact ih _ x hx

/-- `foldl max` starting at `x` lands on a member of `x :: xs`. -/
theorem foldl_max_mem (xs : List Int) (x : Int) :
    xs.foldl max x ∈ x :: xs := by
  induction xs generalizing x with
  | nil => simp
  | cons y ys ih =>
    have h := ih (max x y)
    simp only [List.foldl, List.mem_cons] at h ⊢
    rcases h with h | h
    · rcases max_choice x y with hm | hm
      · left; rw [h, hm]
      · right; left; rw [h, hm]
    · right; right; exact h

/-- `foldl min` starting at `x` lands on a member of `x :: xs`. -/
theorem foldl_min_mem (xs : List Int) (x : Int) :
    xs.foldl min x ∈ x :: xs := by
  induction xs generalizing x with
  | nil => simp
  | cons y ys ih =>
    have h := ih (min x y)
    simp only [List.foldl, List.mem_cons] at h ⊢
    rcases h with h | h
    · rcases min_choice x y with hm | hm
      · left; rw [h, hm]
      · right; left; rw [h, hm]
    · right; right; exact h

/-- The maximum of a nonempty list is one of its elements. -/
theorem listMax_mem (l : List Int) (h : l ≠ []) : listMax l ∈ l := by
  cases l with
  | nil => exact absurd rfl h
  | cons x xs => exact foldl_max_mem xs x

/-- The minimum of a nonempty list is one of its elements. -/
theorem listMin_mem (l : List Int) (h : l ≠ []) : listMin l ∈ l := by
  cases l with
  | nil => exact absurd rfl h
  | cons x xs => exact foldl_min_mem xs x

/-- `foldl max` dominates its seed. -/
theorem le_foldl_max (xs : List Int) (x : Int) : x ≤ xs.foldl max x := by
  induction xs generalizing x with
  | nil => simp
  | cons y ys ih => exact le_trans (le_max_left x y) (ih (max x y))

/-- `foldl max` dominates every list element. -/
theorem mem_le_foldl_max (xs : List Int) (x : Int) :
    ∀ y ∈ xs, y ≤ xs.foldl max x := by
  induction xs generalizing x with
  | nil => simp
  | cons z zs ih =>
    intro y hy
    rcases List.mem_cons.mp hy with hy | hy
    · subst hy
      exact le_trans (le_max_right x y) (le_foldl_max zs (max x y))
    · exact ih (max x z) y hy

/-- `foldl min` is below its seed. -/
theorem foldl_min_le (xs : List Int) (x : Int) : xs.foldl min x ≤ x := by
  induction xs generalizing x with
  | nil => simp
  | cons y ys ih => exact le_trans (ih (min x y)) (min_le_left x y)

/-- `foldl min` is below every list element. -/
theorem foldl_min_le_mem (xs : List Int) (x : Int) :
    ∀ y ∈ xs, xs.foldl min x ≤ y := by
  induction xs generalizing x with
  | nil => simp
  | cons z zs ih =>
    intro y hy
    rcases List.mem_cons.mp hy with hy | hy
    · subst hy
      exact le_trans (foldl_min_le zs (min x y)) (min_le_right x y)
    · exact ih (min x z) y hy

/-- A plain `d20()` call returns the next stream draw and advances one step. -/
theorem d20_zero_eq (s : RState) : d20 0 s = (nthDraw s 0, advance s 1) := by
  simp [d20, drawN, randint, listMin, nthDraw, advance]

/-- Every plain draw is at least 1. -/
theorem one_le_nthDraw (s : RState) (i : Nat) : 1 ≤ nthDraw s i := by
  simp only [nthDraw]
  omega

/-- Every plain draw is at most 20. -/
theorem nthDraw_le_twenty (s : RState) (i : Nat) : nthDraw s i ≤ 20 := by
  simp only [nthDraw]
  have := Nat.mod_lt (s.stream (s.idx + i)) (show 0 < 20 by omega)
  omega

/-- Draw sums are nonnegative. -/
theorem sumDraws_nonneg (s : RState) (k : Nat) : 0 ≤ sumDraws s k := by
  induction k with
  | zero => simp [sumDraws]
  | succ k ih =>
    have := one_le_nthDraw s k
    simp only [sumDraws]
    omega

/-- Shifting the state by one reindexes the plain draws. -/
theorem nthDraw_advance_one (s : RState) (i : Nat) :
    nthDraw (advance s 1) i = nthDraw s (i + 1) := by
  simp only [nthDraw, advance]
  have h : s.idx + 1 + i = s.idx + (i + 1) := by omega
  rw [h]

/-- Splitting off the first draw from a draw sum. -/
theorem sumDraws_shift (s : RState) (j : Nat) :
    sumDraws s (j + 1) = nthDraw s 0 + sumDraws (advance s 1) j := by
  induction j with
  | zero => simp [sumDraws]
  | succ j ih =>
    calc sumDraws s (j + 1 + 1) = sumDraws s (j + 1) + nthDraw s (j + 1) := rfl
    _ = nthDraw s 0 + (sumDraws (advance s 1) j + nthDraw (advance s 1) j) := by
        rw [ih, nthDraw_advance_one]
        ring
    _ = nthDraw s 0 + sumDraws (advance s 1) (j + 1) := rfl

/-- Composing state advances. -/
theorem advance_advance_one (s : RState) (k : Nat) :
    advance (advance s 1) k = advance s (k + 1) := by
  simp only [advance]
  congr 1
  omega

/-- Characterization of the unbounded loop from any midpoint: it succeeds
after the unique number of further draws whose sum first reaches the
remaining threshold. -/
theorem extendedCheckAux_none (threshold : Int) :
    ∀ (n : Nat) (accumulator rollCount : Int) (s : RState),
      (threshold - accumulator).toNat ≤ n → accumulator < threshold →
      ∃ k : Nat, 1 ≤ k ∧
        extendedCheckAux threshold none accumulator rollCount s =
          ((Outcome.Success, rollCount + (k : Int)), advance s k) ∧
        threshold ≤ accumulator + sumDraws s k ∧
        accumulator + sumDraws s (k - 1) < threshold := by
  intro n
  induction n with
  | zero =>
    intro acc cnt s hn hacc
    exfalso
    omega
  | succ n ih =>
    intro acc cnt s hn hacc
    rw [extendedCheckAux, dif_pos hacc, if_neg (by simp [budgetExhausted])]
    simp only [d20_zero_eq]
    by_cases hlt : acc + nthDraw s 0 < threshold
    · have hd := one_le_nthDraw s 0
      obtain ⟨k, hk1, heq, hge, hlt2⟩ :=
        ih (acc + nthDraw s 0) (cnt + 1) (advance s 1) (by omega) hlt
      refine ⟨k + 1, by omega, ?_, ?_, ?_⟩
      · rw [heq, advance_advance_one]
        congr 2
        push_cast
        ring
      · rw [sumDraws_shift]
        omega
      · simp only [Nat.add_sub_cancel]
        obtain ⟨j, rfl⟩ : ∃ j, k = j + 1 := ⟨k - 1, by omega⟩
        rw [sumDraws_shift]
        simp only [Nat.add_sub_cancel] at hlt2
        omega
    · refine ⟨1, le_refl 1, ?_, ?_, ?_⟩
      · rw [extendedCheckAux, dif_neg hlt]
        norm_num
      · simp only [sumDraws]
        omega
      · simp only [sumDraws]
        omega

/-- Characterization of the budgeted loop from any midpoint: the roll count
never exceeds the budget, failure happens exactly when the remaining budget's
draws cannot reach the remaining threshold, and a failure returns the pair
`(Fail, maxRolls)`. -/
theorem extendedCheckAux_some (threshold m : Int) (hm : 0 < m) :
    ∀ (n : Nat) (accumulator rollCount : Int) (s : RState),
      (threshold - accumulator).toNat ≤ n → rollCount ≤ m →
      (extendedCheckAux threshold (some m) accumulator rollCount s).1.2 ≤ m ∧
      ((extendedCheckAux threshold (some m) accumulator rollCount s).1.1 =
          Outcome.Fail ↔
        accumulator + sumDraws s (m - rollCount).toNat < threshold) ∧
      ((extendedCheckAux threshold (some m) accumulator rollCount s).1.1 =
          Outcome.Fail →
        (extendedCheckAux threshold (some m) accumulator rollCount s).1 =
          (Outcome.Fail, m)) := by
  intro n
  induction n with
  | zero =>
    intro acc cnt s hn hcnt
    by_cases hacc : acc < threshold
    · exfalso
      omega
    · rw [extendedCheckAux, dif_neg hacc]
      have hs := sumDraws_nonneg s (m - cnt).toNat
      refine ⟨hcnt, ⟨fun h => absurd h (by simp), fun h => ?_⟩,
        fun h => absurd h (by simp)⟩
      exfalso
      omega
  | succ n ih =>
    intro acc cnt s hn hcnt
    by_cases hacc : acc < threshold
    · by_cases hbud : m ≤ cnt
      · rw [extendedCheckAux, dif_pos hacc,
          if_pos (by simp only [budgetExhausted, Bool.and_eq_true, decide_eq_true_eq]; omega)]
        have hz : (m - cnt).toNat = 0 := by omega
        rw [hz]
        simp only [sumDraws, Option.getD_some]
        exact ⟨le_refl m, by simpa using hacc, by simp⟩
      · rw [extendedCheckAux, dif_pos hacc,
          if_neg (by simp only [budgetExhausted, Bool.and_eq_true, decide_eq_true_eq]; omega)]
        simp only [d20_zero_eq]
        have hd := one_le_nthDraw s 0
        obtain ⟨ih1, ih2, ih3⟩ :=
          ih (acc + nthDraw s 0) (cnt + 1) (advance s 1) (by omega) (by omega)
        refine ⟨ih1, ?_, ih3⟩
        have hsplit : (m - cnt).toNat = (m - (cnt + 1)).toNat + 1 := by omega
        rw [hsplit, sumDraws_shift, ih2]
        omega
    · rw [extendedCheckAux, dif_neg hacc]
      have hs := sumDraws_nonneg s (m - cnt).toNat
      refine ⟨hcnt, ⟨fun h => absurd h (by simp), fun h => ?_⟩,
        fun h => absurd h (by simp)⟩
      exfalso
      omega

/-- The list maximum dominates every element. -/
theorem le_listMax (l : List Int) : ∀ y ∈ l, y ≤ listMax l := by
  cases l with
  | nil => simp
  | cons x xs =>
    intro y hy
    rcases List.mem_cons.mp hy with hy | hy
    · subst hy
      exact le_foldl_max xs y
    · exact mem_le_foldl_max xs x y hy

/-- The list minimum is below every element. -/
theorem listMin_le (l : List Int) : ∀ y ∈ l, listMin l ≤ y := by
  cases l with
  | nil => simp
  | cons x xs =>
    intro y hy
    rcases List.mem_cons.mp hy with hy | hy
    · subst hy
      exact foldl_min_le xs y
    · exact foldl_min_le_mem xs x y hy

/-- The reduced D20 result is one of the faces drawn. -/
theorem d20_fst_mem (adv : Int) (s : RState) :
    (d20 adv s).1 ∈ d20rolls adv s := by
  have hne : d20rolls adv s ≠ [] := by
    intro hcon
    have hl := drawN_length 1 20 (adv.natAbs + 1) s
    rw [d20rolls] at hcon
    rw [hcon] at hl
    simp at hl
  rw [d20, d20rolls]
  by_cases h : 0 < adv
  · simpa [h] using listMax_mem _ hne
  · simpa [h] using listMin_mem _ hne

/-- The classification branch structure of `check`, read off the code. -/
theorem check_fst (threshold adv : Int) (s : RState) :
    (check threshold adv s).1 =
      (if (d20 adv s).1 = 1 then Outcome.CriticalFail
       else if (d20 adv s).1 = 20 then Outcome.CriticalSuccess
       else if (d20 adv s).1 < threshold then Outcome.Fail
       else if (d20 adv s).1 > threshold then Outcome.Success
       else Outcome.NearFail) := rfl

/-- C1: `check` returns CriticalFail iff the reduced D20 roll equals 1 and
CriticalSuccess iff it equals 20, regardless of threshold; the reduced roll
always lies in `[1, 20]`, and for a roll strictly between 1 and 20 the
outcome is Fail / Success / NearFail according to roll < / > / = threshold. -/
theorem check_classification (threshold adv : Int) (s : RState) :
    1 ≤ (d20 adv s).1 ∧ (d20 adv s).1 ≤ 20 ∧
    ((check threshold adv s).1 = Outcome.CriticalFail ↔ (d20 adv s).1 = 1) ∧
    ((check threshold adv s).1 = Outcome.CriticalSuccess ↔
      (d20 adv s).1 = 20) ∧
    (1 < (d20 adv s).1 → (d20 adv s).1 < 20 →
      (check threshold adv s).1 =
        (if (d20 adv s).1 < threshold then Outcome.Fail
         else if (d20 adv s).1 > threshold then Outcome.Success
         else Outcome.NearFail)) := by
  have hb := drawN_mem_bounds 1 20 (by omega) (adv.natAbs + 1) s
    (d20 adv s).1 (d20_fst_mem adv s)
  refine ⟨hb.1, hb.2, ?_, ?_, ?_⟩
  · rw [check_fst]
    split_ifs with h1 h2 h3 h4 <;> simp_all
  · rw [check_fst]
    split_ifs with h1 h2 h3 h4 <;> simp_all
  · intro hgt hlt
    rw [check_fst, if_neg (by omega), if_neg (by omega)]

/-- Witness for C1: with the fixed test stream the first plain roll is 7,
which is classified as Fail against threshold 10. -/
theorem check_classification_witness : (check 10 0 st0).1 = Outcome.Fail := by
  have h := (check_classification 10 0 st0).2.2.2.2
  have hr : (d20 0 st0).1 = 7 := rfl
  rw [hr] at h
  simpa using h (by norm_num) (by norm_num)

/-- C2: `d20 adv` draws exactly `natAbs adv + 1` faces, each in `[1, 20]`,
consumes exactly that many raw values, and returns a greatest drawn face when
`adv > 0`, a least drawn face when `adv < 0`, and the single draw itself when
`adv = 0`. -/
theorem d20_draw_spec (adv : Int) (s : RState) :
    (d20rolls adv s).length = adv.natAbs + 1 ∧
    (d20 adv s).2 = advance s (adv.natAbs + 1) ∧
    (∀ x ∈ d20rolls adv s, 1 ≤ x ∧ x ≤ 20) ∧
    (0 < adv → (d20 adv s).1 ∈ d20rolls adv s ∧
      ∀ x ∈ d20rolls adv s, x ≤ (d20 adv s).1) ∧
    (adv < 0 → (d20 adv s).1 ∈ d20rolls adv s ∧
      ∀ x ∈ d20rolls adv s, (d20 adv s).1 ≤ x) ∧
    (adv = 0 → d20rolls adv s = [nthDraw s 0] ∧
      (d20 adv s).1 = nthDraw s 0) := by
  refine ⟨drawN_length 1 20 (adv.natAbs + 1) s,
    drawN_snd 1 20 (adv.natAbs + 1) s,
    drawN_mem_bounds 1 20 (by omega) (adv.natAbs + 1) s, ?_, ?_, ?_⟩
  · intro h
    refine ⟨d20_fst_mem adv s, ?_⟩
    intro x hx
    have : (d20 adv s).1 = listMax (d20rolls adv s) := by
      rw [d20, d20rolls]
      simp [h]
    rw [this]
    exact le_listMax _ x hx
  · intro h
    refine ⟨d20_fst_mem adv s, ?_⟩
    intro x hx
    have : (d20 adv s).1 = listMin (d20rolls adv s) := by
      rw [d20, d20rolls]
      simp [show ¬ 0 < adv by omega]
    rw [this]
    exact listMin_le _ x hx
  · intro h
    subst h
    constructor
    · simp [d20rolls, drawN, randint, nthDraw]
    · rw [d20_zero_eq]

/-- Witness for C2: with double advantage and the fixed test stream, the
result is a drawn face that dominates all three draws. -/
theorem d20_draw_spec_witness :
    (d20 2 st0).1 ∈ d20rolls 2 st0 ∧
    ∀ x ∈ d20rolls 2 st0, x ≤ (d20 2 st0).1 :=
  (d20_draw_spec 2 st0).2.2.2.1 (by norm_num)

/-- C3: for a positive threshold and a supplied positive budget, the roll
count returned by the extended check never exceeds the budget, the outcome is
Fail exactly when the budget's worth of draws sums below the threshold, and a
failure returns the pair `(Fail, maxRolls)`. -/
theorem extendedCheck_budget_spec (threshold m : Int) (s : RState)
    (ht : 0 < threshold) (hm : 0 < m) :
    (extendedCheck threshold (some m) s).1.2 ≤ m ∧
    ((extendedCheck threshold (some m) s).1.1 = Outcome.Fail ↔
      sumDraws s m.toNat < threshold) ∧
    ((extendedCheck threshold (some m) s).1.1 = Outcome.Fail →
      (extendedCheck threshold (some m) s).1 = (Outcome.Fail, m)) := by
  have h := extendedCheckAux_some threshold m hm threshold.toNat 0 0 s
    (by omega) (by omega)
  rw [extendedCheck]
  simpa using h

/-- Witness for C3: with the fixed test stream, `extendedCheck 30 (some 2)`
draws 7 and 10, missing the threshold, hence the Fail characterizations hold
at this input. -/
theorem extendedCheck_budget_spec_witness :
    (extendedCheck 30 (some 2) st0).1.2 ≤ 2 ∧
    ((extendedCheck 30 (some 2) st0).1.1 = Outcome.Fail ↔
      sumDraws st0 (2 : Int).toNat < 30) ∧
    ((extendedCheck 30 (some 2) st0).1.1 = Outcome.Fail →
      (extendedCheck 30 (some 2) st0).1 = (Outcome.Fail, 2)) :=
  extendedCheck_budget_spec 30 2 st0 (by norm_num) (by norm_num)

/-- C4: with a positive threshold and no budget, the extended check returns
Success with a roll count whose draws sum to at least the threshold while one
fewer draw still sums below it. -/
theorem extendedCheck_unbounded_success (threshold : Int) (s : RState)
    (ht : 0 < threshold) :
    (extendedCheck threshold none s).1.1 = Outcome.Success ∧
    1 ≤ (extendedCheck threshold none s).1.2 ∧
    threshold ≤ sumDraws s (extendedCheck threshold none s).1.2.toNat ∧
    sumDraws s ((extendedCheck threshold none s).1.2.toNat - 1) < threshold := by
  obtain ⟨k, hk1, heq, hge, hlt⟩ :=
    extendedCheckAux_none threshold threshold.toNat 0 0 s (by omega) (by omega)
  rw [extendedCheck, heq]
  have hco : ((0 : Int) + (k : Int)).toNat = k := by omega
  simp only [hco]
  refine ⟨by trivial, by omega, by omega, by omega⟩

/-- Witness for C4: the unbounded extended check against threshold 25 on the
fixed test stream. -/
theorem extendedCheck_unbounded_success_witness :
    (extendedCheck 25 none st0).1.1 = Outcome.Success ∧
    1 ≤ (extendedCheck 25 none st0).1.2 ∧
    25 ≤ sumDraws st0 (extendedCheck 25 none st0).1.2.toNat ∧
    sumDraws st0 ((extendedCheck 25 none st0).1.2.toNat - 1) < 25 :=
  extendedCheck_unbounded_success 25 st0 (by norm_num)

/-- C5: attribute checks delegate to the plain checks with the threshold
shifted by `score - 10`, on the identical random-source state. -/
theorem attribute_delegation (score : Int) (label : String)
    (threshold adv : Int) (maxRolls : Option Int) (s : RState) :
    (Attribute.mk score label).check threshold adv s =
      check (threshold - (score - 10)) adv s ∧
    (Attribute.mk score label).extendedCheck threshold maxRolls s =
      extendedCheck (threshold - (score - 10)) maxRolls s :=
  ⟨rfl, rfl⟩

/-- Counterexample to C6: `d6` with `count = 0` does not fail with
InvalidArgument — it returns normally with value 0 and an unchanged state. -/
theorem d6_error_claim_counterexample :
    d6E 0 false st0 = Except.ok (0, st0) ∧
    ∀ e : Err, d6E 0 false st0 ≠ Except.error e := by
  have h1 : d6E 0 false st0 = Except.ok (0, st0) := rfl
  refine ⟨h1, ?_⟩
  intro e h
  rw [h1] at h
  exact Except.noConfusion h

/-- C6 amended: for `count ≤ 0`, `d6` raises no error; it draws nothing and
returns 0 (or `count * 6` when critical) with the state unchanged. -/
theorem d6_nonpositive_count_no_error (count : Int) (critical : Bool)
    (s : RState) (h : count ≤ 0) :
    d6E count critical s =
      Except.ok ((if critical then count * 6 else 0), s) := by
  have hz : count.toNat = 0 := by omega
  simp [d6E, d6, hz, drawN]

/-- Witness for the amended C6 at `count = -2`, `critical = true`. -/
theorem d6_nonpositive_count_no_error_witness :
    d6E (-2) true st0 = Except.ok (-12, st0) := by
  have h := d6_nonpositive_count_no_error (-2) true st0 (by norm_num)
  simpa using h

/-- Counterexample to C7: `extendedCheck` with `threshold = 0` does not fail
with InvalidArgument — it returns normally with `(Success, 0)`. -/
theorem extendedCheck_error_claim_counterexample :
    extendedCheckE 0 none st0 = Except.ok ((Outcome.Success, 0), st0) ∧
    ∀ e : Err, extendedCheckE 0 none st0 ≠ Except.error e := by
  have h1 : extendedCheckE 0 none st0 =
      Except.ok ((Outcome.Success, 0), st0) := by
    rw [extendedCheckE, extendedCheck, extendedCheckAux, dif_neg (by norm_num)]
  refine ⟨h1, ?_⟩
  intro e h
  rw [h1] at h
  exact Except.noConfusion h

/-- C7 amended: for `threshold ≤ 0`, `extendedCheck` raises no error; the
loop body never runs and the call returns `(Success, 0)` with the state
unchanged. -/
theorem extendedCheck_nonpositive_no_error (threshold : Int)
    (maxRolls : Option Int) (s : RState) (h : threshold ≤ 0) :
    extendedCheckE threshold maxRolls s =
      Except.ok ((Outcome.Success, 0), s) := by
  rw [extendedCheckE, extendedCheck, extendedCheckAux, dif_neg (by omega)]

/-- Witness for the amended C7 at `threshold = -3` with a budget of 5. -/
theorem extendedCheck_nonpositive_no_error_witness :
    extendedCheckE (-3) (some 5) st0 =
      Except.ok ((Outcome.Success, 0), st0) :=
  extendedCheck_nonpositive_no_error (-3) (some 5) st0 (by norm_num)

/-- C8: reseeding with the same seed and replaying the same call sequence
yields identical results (returned values, individual draws, and final
random-source state) both times. -/
theorem reseed_reproducible (seed : Nat) (ops : List Op) (s1 s2 : RState)
    (h1 : s1 = setSeed seed) (h2 : s2 = setSeed seed) :
    runOps ops s1 = runOps ops s2 := by
  subst h1
  subst h2
  rfl

/-- Witness for C8: a four-call sequence replayed from seed 42. -/
theorem reseed_reproducible_witness :
    runOps [Op.rollD20 1, Op.classify 10 0, Op.rollD6 2 true,
        Op.extendedClassify 15 (some 3)] (setSeed 42) =
      runOps [Op.rollD20 1, Op.classify 10 0, Op.rollD6 2 true,
        Op.extendedClassify 15 (some 3)] (setSeed 42) :=
  reseed_reproducible 42 _ _ _ rfl rfl

/-- C9: for `threshold ≤ 0` and any budget, `extendedCheck` raises no error,
draws no dice, and returns `(Success, 0)` with the state unchanged. -/
theorem extendedCheck_nonpositive_success_zero (threshold : Int)
    (maxRolls : Option Int) (s : RState) (h : threshold ≤ 0) :
    extendedCheck threshold maxRolls s = ((Outcome.Success, 0), s) := by
  rw [extendedCheck, extendedCheckAux, dif_neg (by omega)]

/-- Witness for C9 at `threshold = 0` with no budget. -/
theorem extendedCheck_nonpositive_success_zero_witness :
    extendedCheck 0 none st0 = ((Outcome.Success, 0), st0) :=
  extendedCheck_nonpositive_success_zero 0 none st0 (by norm_num)

/-- C10: for `count ≤ 0`, `d6` raises no error; it draws nothing and returns
0 when not critical and `count * 6` when critical, with the state
unchanged. -/
theorem d6_nonpositive_returns (count : Int) (critical : Bool) (s : RState)
    (h : count ≤ 0) :
    d6 count critical s = ((if critical then count * 6 else 0), s) := by
  have hz : count.toNat = 0 := by omega
  simp [d6, hz, drawN]

/-- Witness for C10 at `count = 0`, `critical = false`. -/
theorem d6_nonpositive_returns_witness : d6 0 false st0 = (0, st0) := by
  have h := d6_nonpositive_returns 0 false st0 (by norm_num)
  simpa using h

end IronCopper
